import Mathlib

/-!
Verification development for the powdr witness-generation core and its
satellite crates.

The executor's `BlockProcessor` (src/executor/src/witgen/block_processor.rs),
the plonky3 adapter (src/plonky3/src/lib.rs), the mock-backend machine
construction (src/backend/src/mock/machine.rs) and the parsed-AST helpers
(src/ast/src/parsed/mod.rs) are embedded shallowly below.  Supporting witgen
components that the repository snapshot does not include under src/
(the affine-expression solver, the identity processor, the row data
structures, the sequence iterator and the query processor) are modelled from
the design specification; each such definition carries a doc comment saying
so.
-/

set_option maxRecDepth 8000

/-! ## Analyzed-AST data model (ast crate, analyzed) -/

/-- The three polynomial kinds of `PolynomialType`. -/
inductive PolynomialType
  | Committed
  | Constant
  | Intermediate
deriving DecidableEq, Repr

/-- The `PolyID`: numeric id plus polynomial type. -/
structure PolyID where
  id : Nat
  ptype : PolynomialType
deriving DecidableEq, Repr

/-- The `AlgebraicReference`: a reference to a column, possibly on the next row. -/
structure AlgebraicReference where
  name : String
  poly_id : PolyID
  next : Bool
deriving DecidableEq, Repr

/-- Binary operators of the analyzed algebraic expression tree. -/
inductive AlgebraicBinaryOperator
  | Add
  | Sub
  | Mul
  | Pow
deriving DecidableEq, Repr

/-- Unary operators of the analyzed algebraic expression tree. -/
inductive AlgebraicUnaryOperator
  | Minus
deriving DecidableEq, Repr

/-- The analyzed algebraic expression tree (`AlgebraicExpression`). -/
inductive AlgebraicExpression (F : Type) : Type
  | Reference : AlgebraicReference → AlgebraicExpression F
  | PublicReference : String → AlgebraicExpression F
  | Number : F → AlgebraicExpression F
  | BinaryOperation : AlgebraicExpression F → AlgebraicBinaryOperator →
      AlgebraicExpression F → AlgebraicExpression F
  | UnaryOperation : AlgebraicUnaryOperator → AlgebraicExpression F →
      AlgebraicExpression F
deriving DecidableEq, Repr

/-- The `SelectedExpressions`: optional selector plus an expression list. -/
structure SelectedExpressions (F : Type) where
  selector : Option (AlgebraicExpression F)
  expressions : List (AlgebraicExpression F)
deriving DecidableEq, Repr

/-- The four identity kinds. -/
inductive IdentityKind
  | Polynomial
  | Plookup
  | Permutation
  | Connect
deriving DecidableEq, Repr

/-- An identity of the analyzed program: kind plus left/right selected
expressions. -/
structure Identity (F : Type) where
  kind : IdentityKind
  left : SelectedExpressions F
  right : SelectedExpressions F
deriving DecidableEq, Repr

/-! ## The Goldilocks field

`GoldilocksField` used by the executor tests is the prime field modulo
`2^64 - 2^32 + 1`.  Ring operations come from `ZMod`; the multiplicative
inverse is implemented by Fermat exponentiation so that it evaluates inside
the kernel. -/

def goldilocksModulus : Nat := 18446744069414584321

/-- The Goldilocks base field, as used by `GoldilocksField` in the tests. -/
def Gold : Type := ZMod goldilocksModulus

instance : CommRing Gold := inferInstanceAs (CommRing (ZMod goldilocksModulus))

instance : DecidableEq Gold := inferInstanceAs (DecidableEq (ZMod goldilocksModulus))

/-- Fast binary exponentiation on `Gold`, structural in a fuel argument so
that it reduces in the kernel. -/
def goldPowAux : Nat → Gold → Nat → Gold
  | 0, _, _ => 1
  | fuel + 1, a, n =>
    if n = 0 then 1
    else
      let h := goldPowAux fuel (a * a) (n / 2)
      if n % 2 = 1 then a * h else h

/-- Multiplicative inverse on `Gold` via Fermat exponentiation
(`a⁻¹ = a ^ (p - 2)`, and `0⁻¹ = 0`). -/
instance : Inv Gold := ⟨fun a => goldPowAux 96 a (goldilocksModulus - 2)⟩

instance : ToString Gold := ⟨fun a => toString (ZMod.val a)⟩

/-! ## Affine expressions

Modelled from the spec: §4.1 "Affine Expression" — the symbolic form
`Σ cᵢ·xᵢ + k` over field elements, with variables keyed by
`AlgebraicReference`.  The association list `coefficients` keeps no
zero coefficients. -/

/-- Modelled from the spec: an affine expression `Σ cᵢ·xᵢ + k` (§4.1).  The
repository snapshot does not contain `witgen/affine_expression.rs` under
src/. -/
structure AffineExpression (F : Type) where
  coefficients : List (AlgebraicReference × F)
  offset : F
deriving DecidableEq, Repr

/-- The constant affine expression `k`. -/
def AffineExpression.const {F : Type} (k : F) : AffineExpression F :=
  { coefficients := [], offset := k }

/-- Add `c·x` into a coefficient list, merging equal keys and dropping
terms whose merged coefficient is zero. -/
def addTerm {F : Type} [CommRing F] [DecidableEq F]
    (l : List (AlgebraicReference × F)) (x : AlgebraicReference) (c : F) :
    List (AlgebraicReference × F) :=
  match l with
  | [] => if c = 0 then [] else [(x, c)]
  | (y, d) :: rest =>
    if y = x then
      let e := d + c
      if e = 0 then rest else (y, e) :: rest
    else
      (y, d) :: addTerm rest x c

/-- Modelled from the spec: addition of affine expressions (§4.1). -/
def AffineExpression.add {F : Type} [CommRing F] [DecidableEq F]
    (a b : AffineExpression F) : AffineExpression F :=
  { coefficients := b.coefficients.foldl (fun acc t => addTerm acc t.1 t.2) a.coefficients,
    offset := a.offset + b.offset }

/-- Modelled from the spec: negation of an affine expression (§4.1). -/
def AffineExpression.neg {F : Type} [CommRing F] (a : AffineExpression F) :
    AffineExpression F :=
  { coefficients := a.coefficients.map (fun t => (t.1, -t.2)),
    offset := -a.offset }

/-- Modelled from the spec: subtraction of affine expressions (§4.1). -/
def AffineExpression.sub {F : Type} [CommRing F] [DecidableEq F]
    (a b : AffineExpression F) : AffineExpression F :=
  a.add b.neg

/-- Modelled from the spec: multiplication of an affine expression by a
constant (§4.1).  Terms whose scaled coefficient becomes zero are dropped to
keep the no-zero-coefficient invariant. -/
def AffineExpression.scale {F : Type} [CommRing F] [DecidableEq F]
    (c : F) (a : AffineExpression F) : AffineExpression F :=
  { coefficients := (a.coefficients.map (fun t => (t.1, c * t.2))).filter
      (fun t => decide (t.2 ≠ 0)),
    offset := c * a.offset }

/-- An affine expression is constant when it has no (nonzero) terms. -/
def AffineExpression.isConstant {F : Type} (a : AffineExpression F) : Bool :=
  a.coefficients.isEmpty

/-- Modelled from the spec: multiplication of affine expressions; the
product of two non-constant affines fails with `NonLinear` (§4.1), rendered
here as `none`. -/
def AffineExpression.mul {F : Type} [CommRing F] [DecidableEq F]
    (a b : AffineExpression F) : Option (AffineExpression F) :=
  if a.isConstant then some (AffineExpression.scale a.offset b)
  else if b.isConstant then some (AffineExpression.scale b.offset a)
  else none

/-! ## Constraints, eval values and errors -/

deriving instance DecidableEq for Except

/-- A constraint produced by solving: a definitive assignment.  The spec
(§3) also lists range-restriction constraints; the scenarios embedded here
run with no global range constraints (exactly as the src test harness
`do_with_processor` constructs them, with every constraint slot `None`), and
the modelled solver performs no range propagation, so no range constraint is
ever produced and the variant is omitted. -/
inductive Constraint (F : Type)
  | Assignment : F → Constraint F
deriving DecidableEq, Repr

/-- The `Constraints<K, T>`: a list of (reference, constraint) pairs. -/
abbrev Constraints (F : Type) : Type := List (AlgebraicReference × Constraint F)

/-- The `EvalValue`: constraints plus a completeness flag. -/
structure EvalValue (F : Type) where
  constraints : List (AlgebraicReference × Constraint F)
  complete : Bool
deriving DecidableEq, Repr

/-- Combine two eval values: concatenate constraints, conjoin completeness
(`EvalValue::combine`). -/
def EvalValue.combineWith {F : Type} (a b : EvalValue F) : EvalValue F :=
  { constraints := a.constraints ++ b.constraints,
    complete := a.complete && b.complete }

/-- Errors of the identity-processor layer (spec §7): an identity reduced to
a non-zero constant. -/
inductive EvalError (F : Type)
  | constraintUnsatisfiable
deriving DecidableEq, Repr

/-- Modelled from the spec: the result of `AffineExpression::solve` (§4.1),
restricted to the no-range-constraint setting: a non-zero constant is
unsatisfiable; a single unknown is assigned `-k/c`; several unknowns give an
incomplete result with no constraints (`MultipleSolutions` is non-fatal and
deferred, §7). -/
def affineSolve {F : Type} [CommRing F] [Inv F] [DecidableEq F]
    (a : AffineExpression F) : Except (EvalError F) (EvalValue F) :=
  match a.coefficients with
  | [] =>
    if a.offset = 0 then .ok { constraints := [], complete := true }
    else .error .constraintUnsatisfiable
  | [(x, c)] =>
    .ok { constraints := [(x, .Assignment (-a.offset * c⁻¹))], complete := true }
  | _ => .ok { constraints := [], complete := false }



/-! ## Rows and fixed data

Modelled from the spec: §3 "Row" and §4.2 — a row maps committed poly ids to
cells.  Cells carry only their optional value; see the comment on
`Constraint` for why range constraints are omitted.  A row is a list indexed
by the committed poly id (witness ids are contiguous from 0, as in the src
test harness). -/

/-- A row of the table: one optional value per committed column, indexed by
poly id. -/
abbrev Row (F : Type) : Type := List (Option F)

/-- Read the cell of column `id` in a row. -/
def rowValue {F : Type} (r : Row F) (id : Nat) : Option F :=
  r.getD id none

/-- Write the cell of column `id` in a row. -/
def rowSetValue {F : Type} (r : Row F) (id : Nat) (v : F) : Row F :=
  r.set id (some v)

/-- The fixed data bundle (spec §2/§3): the degree, the precomputed constant
columns (indexed by constant poly id) and the number of witness columns. -/
structure FixedData (F : Type) where
  degree : Nat
  fixed_cols : List (List F)
  witness_count : Nat

/-- Value of constant column `id` at a global row; row indices are cyclic
modulo the degree (spec §3, invariant 4). -/
def fixedValue {F : Type} [CommRing F] (fd : FixedData F) (id : Nat)
    (globalRow : Nat) : F :=
  (fd.fixed_cols.getD id []).getD (globalRow % fd.degree) 0

/-- The `UnknownStrategy` of `witgen/rows.rs`: how a row pair treats cells whose
value is not known yet. -/
inductive UnknownStrategy
  | Zero
  | Unknown
deriving DecidableEq, Repr

/-! ## Symbolic evaluation of algebraic expressions on a row pair

Modelled from the spec: §4.1/§4.3 — an expression is partially evaluated
against the row pair `(current, next)`; known cells and fixed columns become
constants, unknown committed cells become affine variables (or zero, under
`UnknownStrategy::Zero`); the product of two non-constant affines, a `Pow`,
a public reference or an intermediate reference yields no affine form
(`none`), which the identity processor defers as a non-fatal
`NonLinearStep` (§7). -/

/-- Evaluate one algebraic reference against the row pair. -/
def evalRef {F : Type} [CommRing F] (fd : FixedData F) (cur next : Row F)
    (globalRow : Nat) (strat : UnknownStrategy) (r : AlgebraicReference) :
    Option (AffineExpression F) :=
  match r.poly_id.ptype with
  | .Constant =>
    some (AffineExpression.const
      (fixedValue fd r.poly_id.id (globalRow + (if r.next then 1 else 0))))
  | .Committed =>
    let row := if r.next then next else cur
    match rowValue row r.poly_id.id with
    | some v => some (AffineExpression.const v)
    | none =>
      match strat with
      | .Zero => some (AffineExpression.const 0)
      | .Unknown => some { coefficients := [(r, 1)], offset := 0 }
  | .Intermediate => none

/-- Evaluate an algebraic expression to an affine expression over the
unknown cells of the row pair. -/
def evalExpr {F : Type} [CommRing F] [DecidableEq F] (fd : FixedData F)
    (cur next : Row F) (globalRow : Nat) (strat : UnknownStrategy) :
    AlgebraicExpression F → Option (AffineExpression F)
  | .Reference r => evalRef fd cur next globalRow strat r
  | .PublicReference _ => none
  | .Number n => some (AffineExpression.const n)
  | .BinaryOperation l op r => do
    let la ← evalExpr fd cur next globalRow strat l
    let ra ← evalExpr fd cur next globalRow strat r
    match op with
    | .Add => some (la.add ra)
    | .Sub => some (la.sub ra)
    | .Mul => la.mul ra
    | .Pow => none
  | .UnaryOperation .Minus e =>
    (evalExpr fd cur next globalRow strat e).map AffineExpression.neg

/-! ## Identity processor

Modelled from the spec: §4.3 — the repository snapshot does not contain
`witgen/identity_processor.rs` under src/.  For a `Polynomial` identity the
processor evaluates `identity.left.selector − identity.right.selector`
(missing selectors read as 0) and solves the resulting affine expression;
an expression with no affine form is deferred as an incomplete result.
Lookup, permutation and connect identities dispatch to sub-machines (§4.6),
which are outside the scenarios embedded here; they yield an incomplete
result with no local progress. -/

/-- The selector of one side, a missing selector reading as 0. -/
def selectorExpr {F : Type} [Zero F] (s : Option (AlgebraicExpression F)) :
    AlgebraicExpression F :=
  s.getD (.Number 0)

/-- Modelled from the spec: `IdentityProcessor::process_identity` (§4.3). -/
def processIdentityKernel {F : Type} [CommRing F] [Inv F] [DecidableEq F]
    (fd : FixedData F) (cur next : Row F) (globalRow : Nat)
    (strat : UnknownStrategy) (ident : Identity F) :
    Except (EvalError F) (EvalValue F) :=
  match ident.kind with
  | .Polynomial =>
    match evalExpr fd cur next globalRow strat
        (.BinaryOperation (selectorExpr ident.left.selector) .Sub
          (selectorExpr ident.right.selector)) with
    | some a => affineSolve a
    | none => .ok { constraints := [], complete := false }
  | _ => .ok { constraints := [], complete := false }

/-! ## Textual rendering of identities

Modelled from the spec: the `Display` implementation used by
`identity.to_string()` is not under src/; a plain parenthesized rendering
stands in for it. -/

/-- Render a binary operator. -/
def binOpText : AlgebraicBinaryOperator → String
  | .Add => " + "
  | .Sub => " - "
  | .Mul => " * "
  | .Pow => " ** "

/-- Render an algebraic expression. -/
def exprText {F : Type} [ToString F] : AlgebraicExpression F → String
  | .Reference r => r.name ++ (if r.next then ".next" else "")
  | .PublicReference s => s
  | .Number n => toString n
  | .BinaryOperation l op r =>
    "(" ++ exprText l ++ binOpText op ++ exprText r ++ ")"
  | .UnaryOperation .Minus e => "(-" ++ exprText e ++ ")"

/-- Render one side of an identity. -/
def selectedText {F : Type} [ToString F] (s : SelectedExpressions F) : String :=
  (match s.selector with
    | some e => exprText e
    | none => "") ++
  (if s.expressions.isEmpty then ""
   else "[" ++ String.intercalate (", ") (s.expressions.map exprText) ++ "]")

/-- Render an identity (`identity.to_string()`). -/
def identityText {F : Type} [ToString F] (ident : Identity F) : String :=
  match ident.kind with
  | .Polynomial => selectedText ident.left ++ " = 0"
  | .Plookup => selectedText ident.left ++ " in " ++ selectedText ident.right
  | .Permutation => selectedText ident.left ++ " is " ++ selectedText ident.right
  | .Connect => selectedText ident.left ++ " connect " ++ selectedText ident.right

/-! ## Block processor (src/executor/src/witgen/block_processor.rs)

The state and functions below are translated from the source file.  The
table `data` is the list of in-progress rows; the outer query holds the
caller's mutable left-hand side. -/

/-- The `OuterQuery`: local copy of the caller's left-hand side (mutated while
processing) plus the right-hand side of the outer query. -/
structure OuterQuery (F : Type) where
  left : List (AffineExpression F)
  right : SelectedExpressions F
deriving DecidableEq

/-- The mutable state of a `BlockProcessor` run: the rows being processed
and the outer query (if any). -/
structure BPState (F : Type) where
  data : List (Row F)
  outer_query : Option (OuterQuery F)
deriving DecidableEq

/-- The immutable context of a `BlockProcessor`: global row offset,
identities, fixed data, the set of witness columns owned by this machine,
and the host prover-query oracle.

Modelled from the spec (§4.5): the query oracle is collapsed to a function
from (committed poly id, global row) to an optional answer; the
query-string construction of `witgen/query_processor.rs` is not under
src/. -/
structure BPContext (F : Type) where
  row_offset : Nat
  identities : List (Identity F)
  fixed : FixedData F
  witness_cols : List PolyID
  prover_query : Nat → Nat → Option F

/-- Failures surfaced by `BlockProcessor::solve`.  `evalError` carries the
context the source reports at the failure site (the identity's textual
form via `log::warn!("Error in identity: {identity}")` together with the
local and global row indices); `outOfFuel` marks a run whose round budget
was too small to reach a progress-free pass (the real iterator loops until
such a pass, which the spec's monotonicity argument guarantees to exist). -/
inductive SolveFailure (F : Type)
  | evalError (e : EvalError F) (source : String) (localRow globalRow : Nat)
  | panicMissingOuterQuery
  | outOfFuel
deriving DecidableEq

/-- The `AffineExpression::assign`: substitute a known value for a variable,
folding `c·v` into the offset.

Modelled from the spec: §4.4 step 3 — "write into the caller's `left`
affine expressions by substituting the newly-known value". -/
def AffineExpression.assign {F : Type} [CommRing F] [DecidableEq F]
    (a : AffineExpression F) (x : AlgebraicReference) (v : F) :
    AffineExpression F :=
  { coefficients := a.coefficients.filter (fun t => decide (t.1 ≠ x)),
    offset := a.offset + (a.coefficients.foldl
      (fun acc t => if t.1 = x then acc + t.2 else acc) 0) * v }

/-- One update applied by `BlockProcessor::apply_updates` (the body of its
`for (poly, c)` loop): an owned column is written into the local row pair
through the row updater; an assignment to any other column is substituted
into the caller's left-hand side. -/
def applyConstraint {F : Type} [CommRing F] [DecidableEq F] (ctx : BPContext F)
    (row_index : Nat) (s : BPState F) (pc : AlgebraicReference × Constraint F) :
    BPState F :=
  if pc.1.poly_id ∈ ctx.witness_cols then
    match pc.2 with
    | .Assignment v =>
      let target := if pc.1.next then row_index + 1 else row_index
      { s with data := s.data.set target (rowSetValue (s.data.getD target []) pc.1.poly_id.id v) }
  else
    match pc.2 with
    | .Assignment v =>
      { s with outer_query := s.outer_query.map (fun oq =>
          { oq with left := oq.left.map (fun l => l.assign pc.1 v) }) }

/-- The `BlockProcessor::apply_updates` (src lines 285–316): empty updates make
no progress; otherwise each constraint is applied and progress is
reported. -/
def applyUpdates {F : Type} [CommRing F] [DecidableEq F] (ctx : BPContext F)
    (row_index : Nat) (s : BPState F) (updates : EvalValue F) :
    BPState F × Bool :=
  if updates.constraints.isEmpty then (s, false)
  else (updates.constraints.foldl (applyConstraint ctx row_index) s, true)

/-- Modelled from the spec: `QueryProcessor::process_query` (§4.5) — a cell
that is still unknown and has a registered prover query answered by the
oracle receives an assignment; otherwise nothing happens
(`witgen/query_processor.rs` is not under src/). -/
def processQuery {F : Type} (ctx : BPContext F) (cur : Row F)
    (globalRow : Nat) (id : Nat) : EvalValue F :=
  match rowValue cur id with
  | some _ => { constraints := [], complete := true }
  | none =>
    match ctx.prover_query id globalRow with
    | some v =>
      { constraints := [(⟨"", ⟨id, .Committed⟩, false⟩, .Assignment v)],
        complete := true }
    | none => { constraints := [], complete := false }

/-- The `BlockProcessor::process_queries` (src lines 180–198): query every
relevant witness column, combine the answers and apply them. -/
def processQueriesBP {F : Type} [CommRing F] [DecidableEq F]
    (ctx : BPContext F) (s : BPState F) (row_index : Nat) :
    BPState F × Bool :=
  let globalRow := ctx.row_offset + row_index
  let cur := s.data.getD row_index []
  let updates := (List.range ctx.fixed.witness_count).foldl
    (fun acc id =>
      if (⟨id, .Committed⟩ : PolyID) ∈ ctx.witness_cols then
        acc.combineWith (processQuery ctx cur globalRow id)
      else acc)
    { constraints := [], complete := true }
  applyUpdates ctx row_index s updates

/-- The `BlockProcessor::process_identity` (src lines 202–241): build the row
pair, run the identity processor with `UnknownStrategy::Unknown`, surface a
failure together with the identity's textual form and the local and global
row indices, and otherwise apply the updates. -/
def processIdentityBP {F : Type} [CommRing F] [Inv F] [DecidableEq F]
    [ToString F] (ctx : BPContext F) (s : BPState F)
    (row_index identity_index : Nat) :
    Except (SolveFailure F) (BPState F × Bool) :=
  match ctx.identities.get? identity_index with
  | none => .error .panicMissingOuterQuery
  | some ident =>
    match processIdentityKernel ctx.fixed (s.data.getD row_index [])
        (s.data.getD (row_index + 1) []) (ctx.row_offset + row_index)
        .Unknown ident with
    | .error e =>
      .error (.evalError e (identityText ident) row_index
        (ctx.row_offset + row_index))
    | .ok updates => .ok (applyUpdates ctx row_index s updates)

/-- Modelled from the spec: `IdentityProcessor::process_link` (§4.3/§4.4) —
evaluate the caller's left against the local right at this row: the right
selector (when present) must evaluate to the constant 1 for the row to take
part; each right expression is evaluated to an affine form and equated with
the corresponding left-hand side by solving their difference; an expression
with no affine form is deferred as incomplete
(`witgen/identity_processor.rs` is not under src/). -/
def processLink {F : Type} [CommRing F] [Inv F] [DecidableEq F]
    (fd : FixedData F) (left : List (AffineExpression F))
    (right : SelectedExpressions F) (cur next : Row F) (globalRow : Nat) :
    Except (EvalError F) (EvalValue F) :=
  let selOk :=
    match right.selector with
    | none => true
    | some e =>
      match evalExpr fd cur next globalRow .Unknown e with
      | some a => a.isConstant && decide (a.offset = 1)
      | none => false
  if selOk then
    (left.zip right.expressions).foldl
      (fun acc lr => do
        let v ← acc
        match evalExpr fd cur next globalRow .Unknown lr.2 with
        | none => pure (v.combineWith { constraints := [], complete := false })
        | some ra => do
          let u ← affineSolve (lr.1.sub ra)
          pure (v.combineWith u))
      (.ok { constraints := [], complete := true })
  else .ok { constraints := [], complete := false }

/-- The `BlockProcessor::process_outer_query` (src lines 243–283): process the
outer query at the row, apply the updates locally, and return the
assignments to columns not owned by this machine. -/
def processOuterQuery {F : Type} [CommRing F] [Inv F] [DecidableEq F]
    (ctx : BPContext F) (s : BPState F) (row_index : Nat) :
    Except (SolveFailure F) (BPState F × Bool × Constraints F) :=
  match s.outer_query with
  | none => .error .panicMissingOuterQuery
  | some oq =>
    match processLink ctx.fixed oq.left oq.right (s.data.getD row_index [])
        (s.data.getD (row_index + 1) []) (ctx.row_offset + row_index) with
    | .error e =>
      .error (.evalError e ("outer query") row_index
        (ctx.row_offset + row_index))
    | .ok updates =>
      .ok ((applyUpdates ctx row_index s updates).1,
        (applyUpdates ctx row_index s updates).2,
        updates.constraints.filter
          (fun pc => decide (pc.1.poly_id ∉ ctx.witness_cols)))

/-! ## Sequence iterator and the solve loop -/

/-- The actions a sequence step can request. -/
inductive StepAction
  | InternalIdentity (identity_index : Nat)
  | OuterQuery
  | ProverQueries
deriving DecidableEq, Repr

/-- The `SequenceStep { row_delta, action }`. -/
structure SequenceStep where
  row_delta : Int
  action : StepAction
deriving DecidableEq, Repr

/-- One iteration of the `while let` loop of `BlockProcessor::solve`
(src lines 162–176): dispatch on the action, returning the new state, the
progress flag reported to the iterator, and any new outer assignments. -/
def processStep {F : Type} [CommRing F] [Inv F] [DecidableEq F] [ToString F]
    (ctx : BPContext F) (s : BPState F) (step : SequenceStep) :
    Except (SolveFailure F) (BPState F × Bool × Constraints F) :=
  match step.action with
  | .InternalIdentity identity_index =>
    (processIdentityBP ctx s ((1 + step.row_delta).toNat) identity_index).map
      (fun sp => (sp.1, sp.2, []))
  | .OuterQuery => processOuterQuery ctx s ((1 + step.row_delta).toNat)
  | .ProverQueries =>
    .ok ((processQueriesBP ctx s ((1 + step.row_delta).toNat)).1,
      (processQueriesBP ctx s ((1 + step.row_delta).toNat)).2, [])

/-- Run one pass of sequence steps, accumulating the progress flag and the
outer assignments and aborting on the first failure (the step-by-step body
of `BlockProcessor::solve`). -/
def runPass {F : Type} [CommRing F] [Inv F] [DecidableEq F] [ToString F]
    (ctx : BPContext F) :
    List SequenceStep → BPState F →
    Except (SolveFailure F) (BPState F × Bool × Constraints F)
  | [], s => .ok (s, false, [])
  | step :: rest, s =>
    match processStep ctx s step with
    | .error e => .error e
    | .ok (s1, p, outs) =>
      match runPass ctx rest s1 with
      | .error e => .error e
      | .ok (s2, q, outs2) => .ok (s2, p || q, outs ++ outs2)

/-- Modelled from the spec: the progress-driven loop of the default
sequence iterator (§4.4) — repeat the pass while it reports progress and
stop at the first progress-free pass.  The fuel bounds the number of
rounds; the spec's monotone-progress argument guarantees that a large
enough fuel exists, and an exhausted fuel is reported as a failure rather
than silently returning. -/
def solveLoop {F : Type} [CommRing F] [Inv F] [DecidableEq F] [ToString F]
    (ctx : BPContext F) (steps : List SequenceStep) :
    Nat → BPState F → Constraints F →
    Except (SolveFailure F) (BPState F × Constraints F)
  | 0, _, _ => .error .outOfFuel
  | fuel + 1, s, acc =>
    match runPass ctx steps s with
    | .error e => .error e
    | .ok (s1, progress, outs) =>
      if progress then solveLoop ctx steps fuel s1 (acc ++ outs)
      else .ok (s1, acc ++ outs)

/-- The `BlockProcessor::solve` (src lines 156–178), driven by the default
sequence iterator: consume steps until the iterator stops, returning the
accumulated outer assignments together with the final table. -/
def solve {F : Type} [CommRing F] [Inv F] [DecidableEq F] [ToString F]
    (ctx : BPContext F) (steps : List SequenceStep) (fuel : Nat)
    (s : BPState F) : Except (SolveFailure F) (BPState F × Constraints F) :=
  solveLoop ctx steps fuel s []

/-- Modelled from the spec: the steps one pass of the
`DefaultSequenceIterator` emits (§4.4 and the src test harness, which
constructs it as `DefaultSequenceIterator::new(data.len() - 2,
identities.len(), None)`): row deltas `-1, 0, …, block_size - 1`, and for
each row all internal identities, then the outer query on its designated
row, then the prover queries. -/
def defaultPassSteps (block_size identities_count : Nat)
    (outer_query_row : Option Int) : List SequenceStep :=
  (List.range (block_size + 1)).flatMap (fun k =>
    let delta : Int := (k : Int) - 1
    ((List.range identities_count).map
      (fun i => ⟨delta, StepAction.InternalIdentity i⟩)) ++
    (if outer_query_row = some delta then [⟨delta, StepAction.OuterQuery⟩] else []) ++
    [⟨delta, StepAction.ProverQueries⟩])

/-- Abort-on-first-failure iteration (the `?` operator inside the loops of
`BlockProcessor::check_constraints`). -/
def exceptForAll {α E : Type} : List α → (α → Except E Unit) → Except E Unit
  | [], _ => .ok ()
  | x :: xs, f =>
    match f x with
    | .error e => .error e
    | .ok _ => exceptForAll xs f

/-- The `BlockProcessor::check_constraints` (src lines 134–152): evaluate all
identities on all *non-wrapping* row pairs, assuming zero for unknown
values; return the first failure. -/
def checkConstraints {F : Type} [CommRing F] [Inv F] [DecidableEq F]
    (ctx : BPContext F) (data : List (Row F)) : Except (EvalError F) Unit :=
  exceptForAll (List.range (data.length - 1)) (fun i =>
    exceptForAll ctx.identities (fun ident =>
      match processIdentityKernel ctx.fixed (data.getD i [])
          (data.getD (i + 1) []) (ctx.row_offset + i) .Zero ident with
      | .error e => .error e
      | .ok _ => .ok ()))

/-! ## Plonky3 adapter (src/plonky3/src/lib.rs)

The encoded plonky3 trace places the powdr witness columns first, followed
by the powdr fixed columns.  `main.row_slice(0)`/`main.row_slice(1)` are the
current and next trace rows, modelled as plain lists.  `none` models a
panic (`unwrap` on a missing column, an out-of-bounds row read, the
`todo!()` on public references, the `unimplemented!()` on `Pow`, the
`unreachable!()` on intermediate references). -/

/-- The circuit data the adapter reads: named witness and fixed columns. -/
structure PowdrCircuit (F : Type) where
  witness : List (String × List F)
  fixed : List (String × List F)

/-- Position of a named column in a column list
(`iter().position(...).unwrap()`, `none` for the panic). -/
def columnPosition {F : Type} (cols : List (String × List F))
    (name : String) : Option Nat :=
  cols.findIdx? (fun c => c.1 = name)

/-- The `PowdrCircuit::to_plonky3_expr` (src lines 29–87). -/
def toPlonky3Expr {F : Type} [CommRing F] (c : PowdrCircuit F)
    (cur next : List F) : AlgebraicExpression F → Option F
  | .Reference r =>
    let row := if r.next then next else cur
    match r.poly_id.ptype with
    | .Committed => (columnPosition c.witness r.name).bind (fun i => row.get? i)
    | .Constant =>
      (columnPosition c.fixed r.name).bind
        (fun i => row.get? (c.witness.length + i))
    | .Intermediate => none
  | .PublicReference _ => none
  | .Number n => some n
  | .BinaryOperation l op r => do
    let la ← toPlonky3Expr c cur next l
    let ra ← toPlonky3Expr c cur next r
    match op with
    | .Add => some (la + ra)
    | .Sub => some (la - ra)
    | .Mul => some (la * ra)
    | .Pow => none
  | .UnaryOperation .Minus e => (toPlonky3Expr c cur next e).map Neg.neg

/-- The zero-assertions `PowdrCircuit::eval` emits for one identity on one
row pair (src lines 120–141): a `Polynomial` identity must be in the
normalized form (both expression lists empty, no right selector — the
`assert_eq!`/`assert!` calls — and a present left selector, the `unwrap`);
the translated left selector is asserted to be zero.  The other identity
kinds hit `unimplemented!()`.  `none` models any of these panics. -/
def evalIdentityAssertions {F : Type} [CommRing F] (c : PowdrCircuit F)
    (cur next : List F) (ident : Identity F) : Option (List F) :=
  match ident.kind with
  | .Polynomial =>
    if ident.left.expressions.isEmpty && ident.right.expressions.isEmpty
        && ident.right.selector.isNone then
      match ident.left.selector with
      | some e => (toPlonky3Expr c cur next e).map (fun v => [v])
      | none => none
    else none
  | _ => none

/-- Following the spec's words (§4.3): the enforced constraint of a
`Polynomial` identity is `identity.left.selector − identity.right.selector`,
a missing selector reading as 0; the identity holds when this value is
zero. -/
def specPolynomialConstraint {F : Type} [CommRing F] (c : PowdrCircuit F)
    (cur next : List F) (ident : Identity F) : Option F := do
  let l ← match ident.left.selector with
    | some e => toPlonky3Expr c cur next e
    | none => some 0
  let r ← match ident.right.selector with
    | some e => toPlonky3Expr c cur next e
    | none => some 0
  some (l - r)

/-! ## Mock-backend machine construction (src/backend/src/mock/machine.rs) -/

/-- The `Itertools::unique`: deduplicate, keeping first occurrences. -/
def uniqueAux {α : Type} [DecidableEq α] : List α → List α → List α
  | [], _ => []
  | x :: xs, seen =>
    if x ∈ seen then uniqueAux xs seen else x :: uniqueAux xs (x :: seen)

/-- The `Itertools::unique` over a list. -/
def uniqueList {α : Type} [DecidableEq α] (l : List α) : List α :=
  uniqueAux l []

/-- The `Itertools::exactly_one`: succeeds only on singleton lists. -/
def exactlyOne {α : Type} : List α → Option α
  | [x] => some x
  | _ => none

/-- The mock-backend machine: name and size (the trace values, pil
reference and intermediate definitions play no part in the claims and are
not recorded). -/
structure MockMachine (F : Type) where
  machine_name : String
  size : Nat
  witness : List (String × List F)
  fixed : List (String × List F)
deriving DecidableEq, Repr

/-- The `Machine::try_new` (src/backend/src/mock/machine.rs lines 23–69):
the unique witness-column size is extracted
(`unique().exactly_one().unwrap()`, whose panic the outer `none` models);
a size of zero means an empty machine and yields `some none` (the source
returns `None` before anything else runs); otherwise the stage loop
(`for stage in 1..pil.stage_count()`) rebinds the witness through the host
witgen callback, the fixed columns are looked up at the machine's size —
`fixed.get(&(size as DegreeType)).unwrap()` at line 51 panics when the
size-keyed map has no such entry, the second `none`-modelled panic — and
the machine is built.

Modelled from the spec: `machine_witness_columns` and
`machine_fixed_columns` (powdr_backend_utils) are not under src/ —
`witness` is taken to be the machine's own witness columns and
`fixedBySize` is the size-keyed map `machine_fixed_columns` returns
(fixed columns are keyed by their power-of-two length, spec §6);
`pil.stage_count()` becomes the parameter `stage_count` and the external
`witgen_callback.next_stage_witness` a host-supplied function. -/
def MockMachine.try_new {F : Type} (machine_name : String)
    (witness : List (String × List F))
    (fixedBySize : Nat → Option (List (String × List F)))
    (stage_count : Nat)
    (next_stage_witness : Nat → List (String × List F) → List (String × List F)) :
    Option (Option (MockMachine F)) :=
  match exactlyOne (uniqueList (witness.map (fun p => p.2.length))) with
  | none => none
  | some size =>
    if size = 0 then some none
    else
      let witness := (List.range (stage_count - 1)).foldl
        (fun w stage => next_stage_witness (stage + 1) w) witness
      match fixedBySize size with
      | none => none
      | some fixedCols =>
        some (some
          { machine_name := machine_name
            size := size
            witness := witness
            fixed := fixedCols })

/-! ## Parsed AST (src/ast/src/parsed/mod.rs)

`ArrayExpression` and `FunctionDefinition` are parametric in the expression
payload type, which the claims never inspect. -/

/-- The `ArrayExpression` (src lines 754–759). -/
inductive ArrayExpression (E : Type) : Type
  | Value : List E → ArrayExpression E
  | RepeatedValue : List E → ArrayExpression E
  | Concat : ArrayExpression E → ArrayExpression E → ArrayExpression E
deriving DecidableEq

/-- The `ArrayExpression::concat` (src line 770). -/
def ArrayExpression.concat {E : Type} (a b : ArrayExpression E) :
    ArrayExpression E :=
  .Concat a b

/-- The `ArrayExpression::pad_with` (src lines 774–776). -/
def ArrayExpression.pad_with {E : Type} (a : ArrayExpression E) (pad : E) :
    ArrayExpression E :=
  a.concat (.RepeatedValue [pad])

/-- The `ArrayExpression::last` (src lines 782–788): the last expression of the
rightmost component. -/
def ArrayExpression.last {E : Type} : ArrayExpression E → Option E
  | .Value v => v.getLast?
  | .RepeatedValue v => v.getLast?
  | .Concat _ right => right.last

/-- The `ArrayExpression::pad_with_last` (src lines 790–794). -/
def ArrayExpression.pad_with_last {E : Type} (a : ArrayExpression E) :
    Option (ArrayExpression E) :=
  (a.last).map (fun l => a.pad_with l)

/-- The `EnumDeclaration`: only its presence matters to the claims; the payload
is reduced to the declared name. -/
structure EnumDeclaration where
  name : String
deriving DecidableEq, Repr

/-- The `FunctionDefinition` (src lines 723–734). -/
inductive FunctionDefinition (E : Type) : Type
  | Array : ArrayExpression E → FunctionDefinition E
  | Query : E → FunctionDefinition E
  | Expression : E → FunctionDefinition E
  | TypeDeclaration : EnumDeclaration → FunctionDefinition E
deriving DecidableEq

/-- The expression children of an `ArrayExpression`
(`Children<Expression> for ArrayExpression`, src lines 835–844). -/
def ArrayExpression.childList {E : Type} : ArrayExpression E → List E
  | .Value v => v
  | .RepeatedValue v => v
  | .Concat left right => left.childList ++ right.childList

/-- The `FunctionDefinition::children` (src lines 736–743): the
`TypeDeclaration` arm is `todo!()`, which panics — modelled as `none`. -/
def FunctionDefinition.children {E : Type} :
    FunctionDefinition E → Option (List E)
  | .Array ae => some ae.childList
  | .Query e => some [e]
  | .Expression e => some [e]
  | .TypeDeclaration _ => none

/-- The `FunctionDefinition::children_mut` (src lines 745–751): structurally
identical to `children`, with the same `todo!()` panic. -/
def FunctionDefinition.children_mut {E : Type} :
    FunctionDefinition E → Option (List E)
  | .Array ae => some ae.childList
  | .Query e => some [e]
  | .Expression e => some [e]
  | .TypeDeclaration _ => none

/-! ## Claim-facing definitions -/

/-- The value of an identity at row `r` of a table, read against the row
pair `(row r, row ((r+1) mod len))` with unknown cells counted as zero
(the reading `check_constraints` uses, extended with the cyclic wrap of
spec §3 invariant 4): the constant that
`identity.left.selector − identity.right.selector` evaluates to. -/
def identityValueAt {F : Type} [CommRing F] [DecidableEq F]
    (fd : FixedData F) (row_offset : Nat) (data : List (Row F)) (r : Nat)
    (ident : Identity F) : Option F :=
  (evalExpr fd (data.getD r []) (data.getD ((r + 1) % data.length) [])
    (row_offset + r) .Zero
    (.BinaryOperation (selectorExpr ident.left.selector) .Sub
      (selectorExpr ident.right.selector))).map AffineExpression.offset

/-- Every cell of every row holds a value. -/
def allCellsKnown {F : Type} (data : List (Row F)) : Prop :=
  ∀ row ∈ data, ∀ c ∈ row, c.isSome = true

instance {F : Type} (data : List (Row F)) : Decidable (allCellsKnown data) :=
  inferInstanceAs (Decidable (∀ row ∈ data, ∀ c ∈ row, c.isSome = true))

/-- A polynomial identity in the analyzed normal form: the constraint
expression is the left selector, everything else is empty. -/
def mkPolynomialIdentity {F : Type} (e : AlgebraicExpression F) : Identity F :=
  { kind := .Polynomial,
    left := { selector := some e, expressions := [] },
    right := { selector := none, expressions := [] } }

/-- The assignments of `updates.constraints` to columns not owned by the
machine (the filter of `process_outer_query`). -/
def outerAssignmentsOf {F : Type} (wc : List PolyID) (cs : Constraints F) :
    Constraints F :=
  cs.filter (fun pc => decide (pc.1.poly_id ∉ wc))

/-- The constraints of `updates.constraints` on columns owned by the
machine. -/
def ownedConstraintsOf {F : Type} (wc : List PolyID) (cs : Constraints F) :
    Constraints F :=
  cs.filter (fun pc => decide (pc.1.poly_id ∈ wc))

/-- Substitute a list of assignments into one affine expression, in
order. -/
def applyAssignmentsToAff {F : Type} [CommRing F] [DecidableEq F]
    (cs : Constraints F) (a : AffineExpression F) : AffineExpression F :=
  cs.foldl (fun acc pc => match pc.2 with | .Assignment v => acc.assign pc.1 v) a

/-- Apply a list of owned assignments to the local row pair at
`row_index`, in order (the row-updater side of `apply_updates`). -/
def applyOwnedToData {F : Type} [CommRing F] [DecidableEq F]
    (row_index : Nat) (cs : Constraints F) (data : List (Row F)) :
    List (Row F) :=
  cs.foldl
    (fun d pc =>
      match pc.2 with
      | .Assignment v =>
        let target := if pc.1.next then row_index + 1 else row_index
        d.set target (rowSetValue (d.getD target []) pc.1.poly_id.id v))
    data

/-! ## The degree-8 Fibonacci system of `tests::test_fibonacci` -/

/-- The `Fibonacci.ISFIRST`, fixed column 0. -/
def fibRefIsFirst : AlgebraicReference :=
  ⟨"Fibonacci.ISFIRST", ⟨0, .Constant⟩, false⟩

/-- The `Fibonacci.ISLAST`, fixed column 1. -/
def fibRefIsLast : AlgebraicReference :=
  ⟨"Fibonacci.ISLAST", ⟨1, .Constant⟩, false⟩

/-- The `Fibonacci.x`, witness column 0. -/
def fibRefX : AlgebraicReference := ⟨"Fibonacci.x", ⟨0, .Committed⟩, false⟩

/-- The `Fibonacci.y`, witness column 1. -/
def fibRefY : AlgebraicReference := ⟨"Fibonacci.y", ⟨1, .Committed⟩, false⟩

/-- The `Fibonacci.x'` (next row). -/
def fibRefXNext : AlgebraicReference := ⟨"Fibonacci.x", ⟨0, .Committed⟩, true⟩

/-- The `Fibonacci.y'` (next row). -/
def fibRefYNext : AlgebraicReference := ⟨"Fibonacci.y", ⟨1, .Committed⟩, true⟩

/-- The `ISFIRST * (y - 1) = 0`. -/
def fibIdentity1 : Identity Gold :=
  mkPolynomialIdentity (.BinaryOperation (.Reference fibRefIsFirst) .Mul
    (.BinaryOperation (.Reference fibRefY) .Sub (.Number 1)))

/-- The `ISFIRST * (x - 1) = 0`. -/
def fibIdentity2 : Identity Gold :=
  mkPolynomialIdentity (.BinaryOperation (.Reference fibRefIsFirst) .Mul
    (.BinaryOperation (.Reference fibRefX) .Sub (.Number 1)))

/-- The `(1 - ISLAST) * (x' - y) = 0`. -/
def fibIdentity3 : Identity Gold :=
  mkPolynomialIdentity (.BinaryOperation
    (.BinaryOperation (.Number 1) .Sub (.Reference fibRefIsLast)) .Mul
    (.BinaryOperation (.Reference fibRefXNext) .Sub (.Reference fibRefY)))

/-- The `(1 - ISLAST) * (y' - (x + y)) = 0`. -/
def fibIdentity4 : Identity Gold :=
  mkPolynomialIdentity (.BinaryOperation
    (.BinaryOperation (.Number 1) .Sub (.Reference fibRefIsLast)) .Mul
    (.BinaryOperation (.Reference fibRefYNext) .Sub
      (.BinaryOperation (.Reference fibRefX) .Add (.Reference fibRefY))))

/-- Degree 8, `ISFIRST = [1] + [0]*`, `ISLAST = [0]* + [1]`, two witness
columns. -/
def fibFixedData : FixedData Gold :=
  ⟨8, [[1, 0, 0, 0, 0, 0, 0, 0], [0, 0, 0, 0, 0, 0, 0, 1]], 2⟩

/-- The Fibonacci block-processor context, as the src test harness builds
it: row offset 0, both witness columns owned, a query callback that always
answers `None`. -/
def fibCtx : BPContext Gold :=
  ⟨0, [fibIdentity1, fibIdentity2, fibIdentity3, fibIdentity4], fibFixedData,
    [⟨0, .Committed⟩, ⟨1, .Committed⟩], fun _ _ => none⟩

/-- Eight fresh rows with both cells unknown. -/
def fibInit : BPState Gold :=
  ⟨List.replicate 8 [none, none], none⟩

/-- The default iterator steps the src test drives `solve` with:
`DefaultSequenceIterator::new(data.len() - 2, identities.len(), None)`. -/
def fibSteps : List SequenceStep := defaultPassSteps 6 4 none

/-- The table the Fibonacci run produces:
`x = 1,1,2,3,5,8,13,21` and `y = 1,2,3,5,8,13,21,34`. -/
def fibExpectedData : List (Row Gold) :=
  [[some 1, some 1], [some 1, some 2], [some 2, some 3], [some 3, some 5],
   [some 5, some 8], [some 8, some 13], [some 13, some 21], [some 21, some 34]]

/-! ## A degree-2 system whose solve succeeds while an identity fails on
the wrapping row pair

Fixed column `Z = [0, 5]`, witness column `x`, identities `x - Z = 0` and
`x' - (x + 1) = 0`.  Driven exactly like the src test harness
(`block_size = data.len() - 2 = 0`), solve fills `x = [0, 1]` from the
non-wrapping pair `(0, 1)` and succeeds; at row 1 (the wrap row, whose
pair consults row 0) both identities evaluate to non-zero values. -/

/-- Fixed column `Z`, id 0. -/
def wrapRefZ : AlgebraicReference := ⟨"M.Z", ⟨0, .Constant⟩, false⟩

/-- Witness column `x`, id 0. -/
def wrapRefX : AlgebraicReference := ⟨"M.x", ⟨0, .Committed⟩, false⟩

/-- The `x'` (next row). -/
def wrapRefXNext : AlgebraicReference := ⟨"M.x", ⟨0, .Committed⟩, true⟩

/-- The `x - Z = 0`. -/
def wrapIdentity1 : Identity Gold :=
  mkPolynomialIdentity (.BinaryOperation (.Reference wrapRefX) .Sub
    (.Reference wrapRefZ))

/-- The `x' - (x + 1) = 0`. -/
def wrapIdentity2 : Identity Gold :=
  mkPolynomialIdentity (.BinaryOperation (.Reference wrapRefXNext) .Sub
    (.BinaryOperation (.Reference wrapRefX) .Add (.Number 1)))

/-- Degree 2, `Z = [0, 5]`, one witness column. -/
def wrapFixedData : FixedData Gold := ⟨2, [[0, 5]], 1⟩

/-- The context of the wrap counterexample machine. -/
def wrapCtx : BPContext Gold :=
  ⟨0, [wrapIdentity1, wrapIdentity2], wrapFixedData, [⟨0, .Committed⟩],
    fun _ _ => none⟩

/-- Two fresh rows with the single cell unknown. -/
def wrapInit : BPState Gold := ⟨[[none], [none]], none⟩

/-- The `DefaultSequenceIterator::new(data.len() - 2, identities.len(), None)`
for this machine: block size 0, two identities. -/
def wrapSteps : List SequenceStep := defaultPassSteps 0 2 none

/-- The expressions held by the rightmost component of an array
expression (the component `ArrayExpression::last` draws from). -/
def ArrayExpression.rightmostExprs {E : Type} : ArrayExpression E → List E
  | .Value v => v
  | .RepeatedValue v => v
  | .Concat _ right => right.rightmostExprs

/-- A machine with the single unsatisfiable identity `1 = 0`
(end-to-end scenario 4 of spec §8). -/
def unsatCtx : BPContext Gold :=
  ⟨0, [mkPolynomialIdentity (.Number 1)], ⟨2, [], 1⟩, [⟨0, .Committed⟩],
    fun _ _ => none⟩

/-- Two empty-cell rows for the unsatisfiable machine. -/
def unsatInit : BPState Gold := ⟨[[none], [none]], none⟩

/-- A caller-owned column (id 5), not among the callee's witness
columns. -/
def callerRef : AlgebraicReference := ⟨"Caller.a", ⟨5, .Committed⟩, false⟩

/-- The callee's local column (id 0). -/
def calleeRef : AlgebraicReference := ⟨"Callee.b", ⟨0, .Committed⟩, false⟩

/-- An outer query: the caller wants `Caller.a` matched against the
callee's `Callee.b`. -/
def c4OuterQuery : OuterQuery Gold :=
  ⟨[{ coefficients := [(callerRef, 1)], offset := 0 }],
   ⟨none, [.Reference calleeRef]⟩⟩

/-- Callee state: local cell already solved to 7, outer query attached. -/
def c4State : BPState Gold :=
  ⟨[[some 7], [none]], some c4OuterQuery⟩

/-- The callee context: it owns column 0 only. -/
def c4Ctx : BPContext Gold :=
  ⟨0, [], ⟨2, [], 1⟩, [⟨0, .Committed⟩], fun _ _ => none⟩


/-- The updates `process_link` computes for the C4 scenario: a single
assignment of 7 to the caller-owned column. -/
def c4Updates : EvalValue Gold :=
  { constraints := [(callerRef, .Assignment 7)], complete := true }

/-- A two-column circuit for the plonky3 adapter: witness `a`, fixed `z`. -/
def c7Circuit : PowdrCircuit Gold :=
  ⟨[("a", [2, 3])], [("z", [1, 2])]⟩

/-- The normalized polynomial identity `a - (z + 1) = 0` of the
`polynomial_identity` test. -/
def c7Identity : Identity Gold :=
  mkPolynomialIdentity (.BinaryOperation (.Reference ⟨"a", ⟨0, .Committed⟩, false⟩)
    .Sub (.BinaryOperation (.Reference ⟨"z", ⟨0, .Constant⟩, false⟩) .Add
      (.Number 1)))

/-! # Theorems -/

/-! ## C10 — `ArrayExpression::pad_with_last` -/

/-- The `last` reads the last element of the rightmost component. -/
theorem ArrayExpression.last_eq_rightmost {E : Type} (a : ArrayExpression E) :
    a.last = a.rightmostExprs.getLast? := by
  induction a with
  | Value v => rfl
  | RepeatedValue v => rfl
  | Concat l r ihl ihr =>
    simp only [ArrayExpression.last, ArrayExpression.rightmostExprs, ihr]

/-- C10: `pad_with_last` returns `none` exactly when `last()` yields
nothing, i.e. when the rightmost component of the expression holds no
expressions — even if earlier components are non-empty, as in
`Concat(Value([e]), Value([]))`; otherwise it returns the original
expression concatenated with a `RepeatedValue` holding that last
expression. -/
theorem claimC10_pad_with_last {E : Type} :
    (∀ a : ArrayExpression E,
      (a.pad_with_last = none ↔ a.last = none) ∧
      (a.pad_with_last = none ↔ a.rightmostExprs = [])) ∧
    (∀ (a : ArrayExpression E) (l : E), a.last = some l →
      a.pad_with_last = some (a.concat (.RepeatedValue [l]))) ∧
    (∀ x : E,
      (ArrayExpression.Concat (.Value [x]) (.Value [])).pad_with_last = none) := by
  refine ⟨fun a => ⟨?_, ?_⟩, fun a l h => ?_, fun x => rfl⟩
  · rw [ArrayExpression.pad_with_last, Option.map_eq_none']
  · rw [ArrayExpression.pad_with_last, Option.map_eq_none',
      ArrayExpression.last_eq_rightmost, List.getLast?_eq_none_iff]
  · rw [ArrayExpression.pad_with_last, h]
    rfl

/-- Witness for C10 at concrete inputs. -/
theorem claimC10_witness :
    (ArrayExpression.Value ([0] : List Nat)).pad_with_last
      = some ((ArrayExpression.Value [0]).concat (.RepeatedValue [0])) :=
  claimC10_pad_with_last.2.1 _ 0 rfl

/-! ## C9 — `FunctionDefinition::children` on enum declarations -/

/-- C9 (evaluating the code at the failing input): the `TypeDeclaration`
arm of `children`/`children_mut` is the `todo!()` panic, modelled as
`none`; in particular it does not yield the empty iterator the claim (and
spec §9a) intends. -/
theorem claimC9_type_declaration_children {E : Type} (d : EnumDeclaration) :
    @FunctionDefinition.children E (.TypeDeclaration d) = none ∧
    @FunctionDefinition.children_mut E (.TypeDeclaration d) = none ∧
    @FunctionDefinition.children E (.TypeDeclaration d) ≠ some [] :=
  ⟨rfl, rfl, fun h => by cases h⟩

/-! ## C8 — `Machine::try_new` size extraction -/

/-- The `uniqueAux` drops everything already seen. -/
theorem uniqueAux_eq_nil {α : Type} [DecidableEq α] :
    ∀ (l seen : List α), (∀ x ∈ l, x ∈ seen) → uniqueAux l seen = []
  | [], _, _ => rfl
  | x :: xs, seen, h => by
    unfold uniqueAux
    rw [if_pos (h x (List.mem_cons_self x xs))]
    exact uniqueAux_eq_nil xs seen (fun y hy => h y (List.mem_cons_of_mem x hy))

/-- The `Itertools::unique` on a non-empty constant list keeps exactly the
first occurrence. -/
theorem uniqueList_of_constant {α : Type} [DecidableEq α] (a : α) :
    ∀ l : List α, l ≠ [] → (∀ x ∈ l, x = a) → uniqueList l = [a]
  | [], h, _ => absurd rfl h
  | x :: xs, _, h => by
    have hx : x = a := h x (List.mem_cons_self x xs)
    subst hx
    unfold uniqueList uniqueAux
    rw [if_neg (List.not_mem_nil x)]
    have : uniqueAux xs [x] = [] := by
      refine uniqueAux_eq_nil xs [x] (fun y hy => ?_)
      rw [h y (List.mem_cons_of_mem x hy)]
      exact List.mem_singleton.mpr rfl
    rw [this]

/-- C8 counterexample: the stated precondition (at least one witness
column, all of the machine degree's length) does not rule out a panic —
with the common size 3 but no fixed-column entry at size 3, the
`fixed.get(&(size as DegreeType)).unwrap()` at machine.rs line 51 panics
(the outer `none`), so `try_new` does not "never panic" under that
precondition alone. -/
theorem claimC8_counterexample :
    (([(("w"), [0, 0, 0])] : List (String × List Gold)) ≠ []) ∧
    (∀ p ∈ ([(("w"), [0, 0, 0])] : List (String × List Gold)),
      p.2.length = 3) ∧
    MockMachine.try_new ("M") ([(("w"), [0, 0, 0])] : List (String × List Gold))
      (fun _ => none) 1 (fun _ w => w) = none := by
  refine ⟨by decide, by decide, rfl⟩

/-- C8 (amended): under the precondition that the machine has at least one
witness column, every witness column has the same length (the machine's
degree), and the size-keyed fixed-column map has an entry at that length,
neither the `unique().exactly_one().unwrap()` size extraction nor the
fixed-column lookup of line 51 can fail, so `try_new` does not panic; it
returns `None` exactly when the common length is 0 (before the stage loop
and the fixed lookup run) and otherwise `Some` machine whose `size` field
equals that common length. -/
theorem claimC8_try_new_size {F : Type} (name : String)
    (witness : List (String × List F))
    (fixedBySize : Nat → Option (List (String × List F)))
    (stage_count : Nat)
    (next_stage_witness : Nat → List (String × List F) → List (String × List F))
    (degree : Nat) (fixedCols : List (String × List F))
    (h1 : witness ≠ [])
    (h2 : ∀ p ∈ witness, p.2.length = degree)
    (h3 : fixedBySize degree = some fixedCols) :
    MockMachine.try_new name witness fixedBySize stage_count next_stage_witness
      = some (if degree = 0 then none
              else some
                { machine_name := name
                  size := degree
                  witness := (List.range (stage_count - 1)).foldl
                    (fun w stage => next_stage_witness (stage + 1) w) witness
                  fixed := fixedCols }) := by
  have hmap : ∀ x ∈ witness.map (fun p => p.2.length), x = degree := by
    intro x hx
    rcases List.mem_map.mp hx with ⟨p, hp, rfl⟩
    exact h2 p hp
  have hne : witness.map (fun p => p.2.length) ≠ [] := by
    simpa using h1
  unfold MockMachine.try_new
  rw [uniqueList_of_constant degree _ hne hmap]
  by_cases hd : degree = 0 <;> simp [exactlyOne, hd, h3]

/-- Witness for C8 at a concrete machine: one witness column of length 3,
fixed columns available at every size, a single stage. -/
theorem claimC8_witness :
    MockMachine.try_new ("M") ([(("w"), [0, 0, 0])] : List (String × List Gold))
      (fun _ => some [(("z"), [1, 2, 3])]) 1 (fun _ w => w)
      = some (some
        { machine_name := "M"
          size := 3
          witness := [(("w"), [0, 0, 0])]
          fixed := [(("z"), [1, 2, 3])] }) := by
  simpa using claimC8_try_new_size ("M") [(("w"), [(0 : Gold), 0, 0])]
    (fun _ => some [(("z"), [1, 2, 3])]) 1 (fun _ w => w) 3 [(("z"), [1, 2, 3])]
    (by decide) (by intro p hp; rcases List.mem_singleton.mp hp with rfl; rfl)
    rfl

/-! ## C7 — plonky3 polynomial identities -/

/-- C7: for a `Polynomial` identity in the normalized form the backends
consume (both expression lists empty, no right selector, left selector
present), the assertion `PowdrCircuit::eval` emits is exactly that the
translated left selector is zero, and this coincides with the spec's
`left.selector − right.selector = 0` reading (a missing selector counting
as 0). -/
theorem claimC7_polynomial_identity {F : Type} [CommRing F]
    (c : PowdrCircuit F) (cur next : List F) (ident : Identity F)
    (e : AlgebraicExpression F) (v : F)
    (hk : ident.kind = .Polynomial)
    (hle : ident.left.expressions = [])
    (hre : ident.right.expressions = [])
    (hrs : ident.right.selector = none)
    (hls : ident.left.selector = some e)
    (hv : toPlonky3Expr c cur next e = some v) :
    evalIdentityAssertions c cur next ident = some [v] ∧
    specPolynomialConstraint c cur next ident = some v ∧
    (v = 0 ↔ specPolynomialConstraint c cur next ident = some 0) := by
  rcases ident with ⟨k, ⟨lsel, lexp⟩, ⟨rsel, rexp⟩⟩
  simp only at hk hle hre hrs hls
  subst hk hle hre hrs hls
  refine ⟨?_, ?_, ?_⟩
  · simp [evalIdentityAssertions, hv]
  · simp [specPolynomialConstraint, hv]
  · simp [specPolynomialConstraint, hv]

/-- Witness for C7: the identity `a - (z + 1) = 0` on the row pair
`(a, z) = (2, 1)`, `(3, 2)`; the translated selector evaluates to 0 and
the assertion holds. -/
theorem claimC7_witness :
    evalIdentityAssertions c7Circuit [2, 1] [3, 2] c7Identity = some [0] ∧
    specPolynomialConstraint c7Circuit [2, 1] [3, 2] c7Identity = some 0 ∧
    ((0 : Gold) = 0 ↔ specPolynomialConstraint c7Circuit [2, 1] [3, 2] c7Identity = some 0) :=
  claimC7_polynomial_identity c7Circuit [2, 1] [3, 2] c7Identity _ 0
    rfl rfl rfl rfl rfl (by decide)

/-! ## C2 — the degree-8 Fibonacci run -/

/-- C2 counterexample: the Fibonacci solve succeeds with no outer
assignments, but the `y` column is `1,2,3,5,8,13,21,34`, not the claimed
sequence `1,1,2,3,5,8,13,21` (which is the `x` column); already `y[1] = 2`.
-/
theorem claimC2_counterexample :
    solve fibCtx fibSteps 10 fibInit = .ok (⟨fibExpectedData, none⟩, []) ∧
    fibExpectedData.map (fun row => rowValue row 1)
      = [some 1, some 2, some 3, some 5, some 8, some 13, some 21, some 34] ∧
    fibExpectedData.map (fun row => rowValue row 1)
      ≠ [some 1, some 1, some 2, some 3, some 5, some 8, some 13, some 21] := by
  refine ⟨by decide, by decide, by decide⟩

/-- C2 (amended): the Fibonacci solve succeeds with no outer assignments
and produces `x = 1,1,2,3,5,8,13,21` and `y = 1,2,3,5,8,13,21,34`; in
particular `y[7] = 34` and `x[7] = 21`. -/
theorem claimC2_fibonacci :
    solve fibCtx fibSteps 10 fibInit = .ok (⟨fibExpectedData, none⟩, []) ∧
    fibExpectedData.map (fun row => rowValue row 0)
      = [some 1, some 1, some 2, some 3, some 5, some 8, some 13, some 21] ∧
    fibExpectedData.map (fun row => rowValue row 1)
      = [some 1, some 2, some 3, some 5, some 8, some 13, some 21, some 34] ∧
    rowValue (fibExpectedData.getD 7 []) 1 = some 34 ∧
    rowValue (fibExpectedData.getD 7 []) 0 = some 21 := by
  refine ⟨by decide, by decide, by decide, by decide, by decide⟩

/-! ## C1 — identities after a successful solve -/

/-- C1 counterexample: a machine (degree 2, fixed `Z = [0,5]`, identities
`x - Z = 0` and `x' - (x + 1) = 0`, driven exactly as the src test harness
drives solve) whose solve completes successfully, yet at row `degree - 1`
— the wrapping pair, which consults row 0 — both identities evaluate to
non-zero values, and even `check_constraints` (which skips the wrapping
pair) accepts the table. -/
theorem claimC1_counterexample :
    solve wrapCtx wrapSteps 10 wrapInit = .ok (⟨[[some 0], [some 1]], none⟩, []) ∧
    identityValueAt wrapFixedData 0 [[some 0], [some 1]] 1 wrapIdentity1 ≠ some 0 ∧
    identityValueAt wrapFixedData 0 [[some 0], [some 1]] 1 wrapIdentity2 ≠ some 0 ∧
    checkConstraints wrapCtx [[some 0], [some 1]] = .ok () := by
  refine ⟨by decide, by decide, by decide, by decide⟩

/-! ## C6 — determinism of solve -/

/-- C6: `BlockProcessor::solve` is deterministic — on identical inputs,
with a query oracle that returns identical answers to identical queries,
the result (table, outer assignments, or failure) is identical. -/
theorem claimC6_solve_deterministic {F : Type} [CommRing F] [Inv F]
    [DecidableEq F] [ToString F] (ctx : BPContext F)
    (q2 : Nat → Nat → Option F) (steps : List SequenceStep) (fuel : Nat)
    (s : BPState F)
    (h : ∀ id globalRow, ctx.prover_query id globalRow = q2 id globalRow) :
    solve ctx steps fuel s = solve { ctx with prover_query := q2 } steps fuel s := by
  have hq : ctx.prover_query = q2 :=
    funext (fun id => funext (fun globalRow => h id globalRow))
  rcases ctx with ⟨ro, ids, fd, wc, pq⟩
  simp only at hq
  subst hq
  rfl

/-- Witness for C6: two runs of the Fibonacci machine with extensionally
equal oracles coincide. -/
theorem claimC6_witness :
    solve fibCtx fibSteps 10 fibInit
      = solve { fibCtx with prover_query := fun _ _ => none } fibSteps 10 fibInit :=
  claimC6_solve_deterministic fibCtx (fun _ _ => none) fibSteps 10 fibInit
    (fun _ _ => rfl)

/-! ## C1 — the amended guarantee and its helpers -/

/-- A successful `exceptForAll` run means every element succeeded. -/
theorem exceptForAll_ok {α E : Type} {l : List α} {f : α → Except E Unit}
    (h : exceptForAll l f = .ok ()) : ∀ x ∈ l, f x = .ok () := by
  induction l with
  | nil => intro x hx; cases hx
  | cons a as ih =>
    intro x hx
    unfold exceptForAll at h
    cases hf : f a with
    | error e => rw [hf] at h; cases h
    | ok u =>
      rw [hf] at h
      rcases List.mem_cons.mp hx with rfl | hx2
      · cases u; exact hf
      · exact ih h x hx2

/-- Under `UnknownStrategy::Zero` every cell reads as a constant, so a
successful evaluation yields a constant affine expression. -/
theorem evalExpr_zero_coefficients {F : Type} [CommRing F] [DecidableEq F]
    (fd : FixedData F) (cur next : Row F) (gr : Nat) :
    ∀ (e : AlgebraicExpression F) (a : AffineExpression F),
      evalExpr fd cur next gr .Zero e = some a → a.coefficients = [] := by
  intro e
  induction e with
  | Reference r =>
    intro a h
    rcases r with ⟨nm, ⟨id, pt⟩, nx⟩
    cases pt with
    | Committed =>
      simp only [evalExpr, evalRef] at h
      cases hv : rowValue (if nx then next else cur) id with
      | some v => rw [hv] at h; cases h; rfl
      | none => rw [hv] at h; cases h; rfl
    | Constant =>
      simp only [evalExpr, evalRef] at h
      cases h; rfl
    | Intermediate =>
      simp only [evalExpr, evalRef] at h
      cases h
  | PublicReference s => intro a h; cases h
  | Number n => intro a h; cases h; rfl
  | BinaryOperation l op r ihl ihr =>
    intro a h
    simp only [evalExpr] at h
    cases hl : evalExpr fd cur next gr .Zero l with
    | none => rw [hl] at h; cases h
    | some la =>
      rw [hl] at h
      cases hr : evalExpr fd cur next gr .Zero r with
      | none => rw [hr] at h; cases h
      | some ra =>
        rw [hr] at h
        have hla : la.coefficients = [] := ihl la hl
        have hra : ra.coefficients = [] := ihr ra hr
        cases op with
        | Add =>
          cases h
          simp [AffineExpression.add, hra, hla]
        | Sub =>
          cases h
          simp [AffineExpression.sub, AffineExpression.add, AffineExpression.neg, hra, hla]
        | Mul =>
          have hc : la.isConstant = true := by
            simp [AffineExpression.isConstant, hla]
          simp only [AffineExpression.mul, hc, if_true, Option.pure_def,
            Option.bind_eq_bind, Option.some_bind, Option.some.injEq] at h
          subst h
          simp [AffineExpression.scale, hra]
        | Pow => cases h
  | UnaryOperation op e ih =>
    cases op
    intro a h
    simp only [evalExpr] at h
    cases he : evalExpr fd cur next gr .Zero e with
    | none => rw [he] at h; cases h
    | some ea =>
      rw [he] at h
      cases h
      simp [AffineExpression.neg, ih ea he]

/-- Solving a constant affine expression: satisfied iff the offset is
zero. -/
theorem affineSolve_const {F : Type} [CommRing F] [Inv F] [DecidableEq F]
    (a : AffineExpression F) (h : a.coefficients = []) :
    affineSolve a = if a.offset = 0
      then .ok { constraints := [], complete := true }
      else .error .constraintUnsatisfiable := by
  rcases a with ⟨cs, k⟩
  simp only at h
  subst h
  rfl

/-- C1 (amended): after `BlockProcessor::check_constraints` succeeds,
every `Polynomial` identity evaluates to 0 at every *non-wrapping* row
pair `(r, r+1)`, `r + 1 < len`, with unknown cells read as zero; the
wrapping pair at row `degree - 1` is not covered (see the
counterexample), and success of `solve` alone does not imply the
identities hold. -/
theorem claimC1_check_constraints {F : Type} [CommRing F] [Inv F] [DecidableEq F]
    (ctx : BPContext F) (data : List (Row F))
    (h : checkConstraints ctx data = .ok ())
    (ident : Identity F) (hid : ident ∈ ctx.identities)
    (hkind : ident.kind = .Polynomial)
    (r : Nat) (hr : r + 1 < data.length)
    (v : F) (hv : identityValueAt ctx.fixed ctx.row_offset data r ident = some v) :
    v = 0 := by
  have hrr : r ∈ List.range (data.length - 1) := List.mem_range.mpr (by omega)
  have h1 := exceptForAll_ok h r hrr
  have h2 := exceptForAll_ok h1 ident hid
  have hmod : (r + 1) % data.length = r + 1 := Nat.mod_eq_of_lt hr
  rw [identityValueAt, hmod, Option.map_eq_some'] at hv
  rcases hv with ⟨a, ha, hoff⟩
  have hcoef : a.coefficients = [] :=
    evalExpr_zero_coefficients ctx.fixed (data.getD r []) (data.getD (r + 1) [])
      (ctx.row_offset + r) _ a ha
  rcases ident with ⟨k, il, ir⟩
  simp only at hkind
  subst hkind
  cases hk2 : processIdentityKernel ctx.fixed (data.getD r [])
      (data.getD (r + 1) []) (ctx.row_offset + r) .Zero ⟨.Polynomial, il, ir⟩ with
  | error e => rw [hk2] at h2; cases h2
  | ok u =>
    simp only [processIdentityKernel, ha] at hk2
    rw [affineSolve_const a hcoef] at hk2
    by_cases hz : a.offset = 0
    · rw [← hoff]; exact hz
    · rw [if_neg hz] at hk2
      cases hk2

/-- Witness for C1 at the solved Fibonacci table: `check_constraints`
accepts it and the first identity evaluates to zero at row 0. -/
theorem claimC1_witness :
    checkConstraints fibCtx fibExpectedData = .ok () ∧ (0 : Gold) = 0 :=
  ⟨by decide, claimC1_check_constraints fibCtx fibExpectedData (by decide)
    fibIdentity1 (by decide) rfl 0 (by decide) 0 (by decide)⟩

/-! ## C5 — idempotence of solve -/

/-- The `apply_updates` reports no progress only for empty updates, leaving
the state untouched. -/
theorem applyUpdates_eq_false {F : Type} [CommRing F] [DecidableEq F]
    {ctx : BPContext F} {row : Nat} {s t : BPState F} {u : EvalValue F}
    (h : applyUpdates ctx row s u = (t, false)) :
    t = s ∧ u.constraints = [] := by
  unfold applyUpdates at h
  by_cases he : u.constraints.isEmpty = true
  · rw [if_pos he] at h
    exact ⟨(Prod.mk.injEq _ _ _ _ ▸ h).1.symm, List.isEmpty_iff.mp he⟩
  · rw [if_neg he] at h
    cases (Prod.mk.injEq _ _ _ _ ▸ h).2

/-- A no-progress identity step leaves the state untouched. -/
theorem processIdentityBP_no_progress {F : Type} [CommRing F] [Inv F]
    [DecidableEq F] [ToString F] {ctx : BPContext F} {s t : BPState F}
    {row i : Nat}
    (h : processIdentityBP ctx s row i = .ok (t, false)) : t = s := by
  unfold processIdentityBP at h
  split at h
  · cases h
  · split at h
    · cases h
    · simp only [Except.ok.injEq] at h
      exact (applyUpdates_eq_false h).1

/-- A no-progress outer-query step leaves the state untouched and emits
no outer assignments. -/
theorem processOuterQuery_no_progress {F : Type} [CommRing F] [Inv F]
    [DecidableEq F] {ctx : BPContext F} {s t : BPState F} {row : Nat}
    {o : Constraints F}
    (h : processOuterQuery ctx s row = .ok (t, false, o)) :
    t = s ∧ o = [] := by
  unfold processOuterQuery at h
  split at h
  · cases h
  · split at h
    · cases h
    · rename_i oq u hu
      simp only [Except.ok.injEq, Prod.mk.injEq] at h
      rcases h with ⟨h1, h2, h3⟩
      have hau : applyUpdates ctx row s u = (t, false) := by
        rw [← h1, ← h2]
      rcases applyUpdates_eq_false hau with ⟨hts, hcs⟩
      refine ⟨hts, ?_⟩
      rw [← h3, hcs]
      rfl

/-- A no-progress query step leaves the state untouched. -/
theorem processQueriesBP_no_progress {F : Type} [CommRing F] [DecidableEq F]
    {ctx : BPContext F} {s t : BPState F} {row : Nat}
    (h : processQueriesBP ctx s row = (t, false)) : t = s := by
  unfold processQueriesBP at h
  exact (applyUpdates_eq_false h).1

/-- A no-progress sequence step leaves the state untouched and emits no
outer assignments. -/
theorem processStep_no_progress {F : Type} [CommRing F] [Inv F] [DecidableEq F]
    [ToString F] {ctx : BPContext F} {s t : BPState F} {step : SequenceStep}
    {o : Constraints F}
    (h : processStep ctx s step = .ok (t, false, o)) :
    t = s ∧ o = [] := by
  unfold processStep at h
  split at h
  · rename_i x i heq
    cases hb : processIdentityBP ctx s ((1 + step.row_delta).toNat) i with
    | error e => rw [hb] at h; cases h
    | ok sp =>
      rw [hb] at h
      cases sp with
      | mk t2 p2 =>
        simp only [Except.map, Except.ok.injEq, Prod.mk.injEq] at h
        rcases h with ⟨h1, h2, h3⟩
        subst h1 h3
        subst h2
        exact ⟨processIdentityBP_no_progress hb, rfl⟩
  · exact processOuterQuery_no_progress h
  · cases hq : processQueriesBP ctx s ((1 + step.row_delta).toNat) with
    | mk t2 p2 =>
      rw [hq] at h
      simp only [Except.ok.injEq, Prod.mk.injEq] at h
      rcases h with ⟨h1, h2, h3⟩
      subst h1 h3
      subst h2
      exact ⟨processQueriesBP_no_progress hq, rfl⟩

/-- A progress-free pass leaves the state untouched and emits no outer
assignments. -/
theorem runPass_no_progress {F : Type} [CommRing F] [Inv F] [DecidableEq F]
    [ToString F] {ctx : BPContext F} :
    ∀ {steps : List SequenceStep} {s t : BPState F} {o : Constraints F},
      runPass ctx steps s = .ok (t, false, o) → t = s ∧ o = [] := by
  intro steps
  induction steps with
  | nil =>
    intro s t o h
    unfold runPass at h
    simp only [Except.ok.injEq, Prod.mk.injEq] at h
    exact ⟨h.1.symm, h.2.2.symm⟩
  | cons step rest ih =>
    intro s t o h
    unfold runPass at h
    cases hps : processStep ctx s step with
    | error e => simp only [hps] at h; cases h
    | ok r =>
      rcases r with ⟨s1, p, o1⟩
      simp only [hps] at h
      cases hrp : runPass ctx rest s1 with
      | error e => simp only [hrp] at h; cases h
      | ok r2 =>
        rcases r2 with ⟨s2, q, o2⟩
        simp only [hrp] at h
        simp only [Except.ok.injEq, Prod.mk.injEq] at h
        rcases h with ⟨h1, h2, h3⟩
        rcases Bool.or_eq_false_iff.mp h2 with ⟨hp, hq⟩
        subst hp hq h1
        rcases processStep_no_progress hps with ⟨hs1, ho1⟩
        subst hs1
        rcases ih hrp with ⟨hs2, ho2⟩
        subst hs2
        refine ⟨rfl, ?_⟩
        rw [← h3, ho1, ho2]
        rfl

/-- A successful solve ends in a progress-free pass over its final state
(the iterator stops exactly there). -/
theorem solveLoop_final_pass {F : Type} [CommRing F] [Inv F] [DecidableEq F]
    [ToString F] {ctx : BPContext F} {steps : List SequenceStep} :
    ∀ {fuel : Nat} {s : BPState F} {acc : Constraints F} {t : BPState F}
      {outs : Constraints F},
      solveLoop ctx steps fuel s acc = .ok (t, outs) →
      runPass ctx steps t = .ok (t, false, []) := by
  intro fuel
  induction fuel with
  | zero =>
    intro s acc t outs h
    unfold solveLoop at h
    cases h
  | succ n ih =>
    intro s acc t outs h
    unfold solveLoop at h
    cases hrp : runPass ctx steps s with
    | error e => rw [hrp] at h; cases h
    | ok r =>
      rcases r with ⟨s1, progress, o⟩
      rw [hrp] at h
      cases progress with
      | true =>
        simp only [if_true] at h
        exact ih h
      | false =>
        simp only [Bool.false_eq_true, if_false, Except.ok.injEq,
          Prod.mk.injEq] at h
        rcases h with ⟨h1, h2⟩
        subst h1
        rcases runPass_no_progress hrp with ⟨hs, ho⟩
        subst hs
        rwa [ho] at hrp

/-- C5: running solve a second time on the fully-solved table a successful
solve returned (every cell known) makes zero progress at every sequence
step — the single pass reports no progress and leaves the table unchanged
— and returns success with no outer assignments. -/
theorem claimC5_second_solve {F : Type} [CommRing F] [Inv F] [DecidableEq F]
    [ToString F] (ctx : BPContext F) (steps : List SequenceStep)
    (fuel fuel2 : Nat) (s s2 : BPState F) (outs : Constraints F)
    (h1 : solve ctx steps fuel s = .ok (s2, outs))
    (h2 : allCellsKnown s2.data) :
    solve ctx steps (fuel2 + 1) s2 = .ok (s2, []) ∧
    runPass ctx steps s2 = .ok (s2, false, []) := by
  have hrp := solveLoop_final_pass h1
  refine ⟨?_, hrp⟩
  unfold solve solveLoop
  rw [hrp]
  simp

/-- Witness for C5: the solved Fibonacci table. -/
theorem claimC5_witness :
    solve fibCtx fibSteps (2 + 1) ⟨fibExpectedData, none⟩
      = .ok (⟨fibExpectedData, none⟩, []) ∧
    runPass fibCtx fibSteps ⟨fibExpectedData, none⟩
      = .ok (⟨fibExpectedData, none⟩, false, []) :=
  claimC5_second_solve fibCtx fibSteps 10 2 fibInit ⟨fibExpectedData, none⟩ []
    (by decide) (by decide)

/-! ## C3 — immediate error propagation -/

/-- Splitting a pass at a step boundary. -/
theorem runPass_append {F : Type} [CommRing F] [Inv F] [DecidableEq F]
    [ToString F] (ctx : BPContext F) :
    ∀ (a b : List SequenceStep) (s : BPState F),
      runPass ctx (a ++ b) s =
        match runPass ctx a s with
        | .error e => .error e
        | .ok (s1, p, o) =>
          match runPass ctx b s1 with
          | .error e => .error e
          | .ok (s2, q, o2) => .ok (s2, p || q, o ++ o2) := by
  intro a
  induction a with
  | nil =>
    intro b s
    simp only [List.nil_append]
    cases hb : runPass ctx b s with
    | error e => simp [runPass, hb]
    | ok r =>
      rcases r with ⟨s2, q, o2⟩
      simp [runPass, hb]
  | cons step rest ih =>
    intro b s
    simp only [List.cons_append]
    simp only [runPass]
    cases hps : processStep ctx s step with
    | error e => simp only [hps]
    | ok r =>
      rcases r with ⟨s1, p, o1⟩
      simp only [hps]
      rw [ih b s1]
      cases h1 : runPass ctx rest s1 with
      | error e => simp only [h1]
      | ok r2 =>
        rcases r2 with ⟨s2, q, o2⟩
        simp only [h1]
        cases h2 : runPass ctx b s2 with
        | error e => simp only [h2]
        | ok r3 =>
          rcases r3 with ⟨s3, u, o3⟩
          simp only [h2, Except.ok.injEq, Prod.mk.injEq]
          exact ⟨trivial, (Bool.or_assoc p q u).symm, (List.append_assoc o1 o2 o3).symm⟩

/-- C3: if the identity processor fails at some sequence step, `solve`
returns that failure immediately — the result does not depend on the
remaining steps `steps2`, and being an `error` it carries no outer
assignments — and the failure surfaces the identity's textual form
together with the local and the global row index of the row pair. -/
theorem claimC3_error_propagation {F : Type} [CommRing F] [Inv F]
    [DecidableEq F] [ToString F] (ctx : BPContext F)
    (steps1 steps2 : List SequenceStep) (delta : Int) (ii fuel : Nat)
    (s s1 : BPState F) (prog : Bool) (outs : Constraints F)
    (ident : Identity F) (e : EvalError F)
    (h1 : runPass ctx steps1 s = .ok (s1, prog, outs))
    (h2 : ctx.identities.get? ii = some ident)
    (h3 : processIdentityKernel ctx.fixed (s1.data.getD ((1 + delta).toNat) [])
        (s1.data.getD ((1 + delta).toNat + 1) [])
        (ctx.row_offset + (1 + delta).toNat) .Unknown ident = .error e) :
    solve ctx (steps1 ++ ⟨delta, .InternalIdentity ii⟩ :: steps2) (fuel + 1) s
      = .error (.evalError e (identityText ident) ((1 + delta).toNat)
          (ctx.row_offset + (1 + delta).toNat)) := by
  have hstep : processStep ctx s1 ⟨delta, .InternalIdentity ii⟩
      = .error (.evalError e (identityText ident) ((1 + delta).toNat)
          (ctx.row_offset + (1 + delta).toNat)) := by
    simp only [processStep, processIdentityBP, h2, h3]
    rfl
  have hpass : runPass ctx (steps1 ++ ⟨delta, .InternalIdentity ii⟩ :: steps2) s
      = .error (.evalError e (identityText ident) ((1 + delta).toNat)
          (ctx.row_offset + (1 + delta).toNat)) := by
    rw [runPass_append ctx steps1 (⟨delta, .InternalIdentity ii⟩ :: steps2) s, h1]
    simp only [runPass, hstep]
  unfold solve solveLoop
  rw [hpass]

/-- Witness for C3: the machine with the single identity `1 = 0` (spec
scenario 4) fails at row 0 with `ConstraintUnsatisfiable`. -/
theorem claimC3_witness :
    (runPass unsatCtx [] unsatInit = .ok (unsatInit, false, [])) ∧
    (unsatCtx.identities.get? 0 = some (mkPolynomialIdentity (.Number 1))) ∧
    identityText (mkPolynomialIdentity (.Number (1 : Gold))) = ("1 = 0") ∧
    solve unsatCtx ([] ++ ⟨-1, .InternalIdentity 0⟩ :: []) (4 + 1) unsatInit
      = .error (.evalError .constraintUnsatisfiable
          (identityText (mkPolynomialIdentity (.Number (1 : Gold)))) 0 0) := by
  refine ⟨rfl, rfl, by decide, ?_⟩
  exact claimC3_error_propagation unsatCtx [] [] (-1) 0 4 unsatInit unsatInit
    false [] (mkPolynomialIdentity (.Number 1)) .constraintUnsatisfiable
    rfl rfl (by decide)

/-! ## C4 — outer-query assignment routing -/

/-- The constraint-application loop of `apply_updates` decomposes: owned
constraints are written to the local row pair, assignments to non-owned
columns are substituted into every left-hand side of the outer query. -/
theorem foldl_applyConstraint_split {F : Type} [CommRing F] [DecidableEq F]
    (ctx : BPContext F) (row : Nat) :
    ∀ (cs : Constraints F) (s : BPState F),
      cs.foldl (applyConstraint ctx row) s =
        { data := applyOwnedToData row (ownedConstraintsOf ctx.witness_cols cs) s.data,
          outer_query := s.outer_query.map (fun oq =>
            { oq with
              left := oq.left.map (applyAssignmentsToAff (outerAssignmentsOf ctx.witness_cols cs)) }) } := by
  intro cs
  induction cs with
  | nil =>
    intro s
    simp only [List.foldl_nil, ownedConstraintsOf, outerAssignmentsOf,
      List.filter_nil, applyOwnedToData, applyAssignmentsToAff]
    cases s with
    | mk d oqo =>
      cases oqo with
      | none => rfl
      | some oq =>
        have ha : applyAssignmentsToAff ([] : Constraints F) = fun a => a := rfl
        simp [ha]
  | cons pc rest ih =>
    intro s
    rcases pc with ⟨r, c⟩
    rcases c with ⟨v⟩
    simp only [List.foldl_cons]
    rw [ih]
    by_cases hw : r.poly_id ∈ ctx.witness_cols
    · have h1 : ownedConstraintsOf ctx.witness_cols ((r, Constraint.Assignment v) :: rest)
          = (r, Constraint.Assignment v) :: ownedConstraintsOf ctx.witness_cols rest := by
        simp [ownedConstraintsOf, hw]
      have h2 : outerAssignmentsOf ctx.witness_cols ((r, Constraint.Assignment v) :: rest)
          = outerAssignmentsOf ctx.witness_cols rest := by
        simp [outerAssignmentsOf, hw]
      have h3 : applyConstraint ctx row s (r, Constraint.Assignment v)
          = { s with data := (s.data.set (if r.next then row + 1 else row) (rowSetValue (s.data.getD (if r.next then row + 1 else row) []) r.poly_id.id v)) } := by
        unfold applyConstraint
        rw [if_pos hw]
      rw [h1, h2, h3]
      have h4 : applyOwnedToData row ((r, Constraint.Assignment v) :: ownedConstraintsOf ctx.witness_cols rest) s.data
          = applyOwnedToData row (ownedConstraintsOf ctx.witness_cols rest) (s.data.set (if r.next then row + 1 else row) (rowSetValue (s.data.getD (if r.next then row + 1 else row) []) r.poly_id.id v)) := by
        simp only [applyOwnedToData, List.foldl_cons]
      rw [h4]
    · have h1 : ownedConstraintsOf ctx.witness_cols ((r, Constraint.Assignment v) :: rest)
          = ownedConstraintsOf ctx.witness_cols rest := by
        simp [ownedConstraintsOf, hw]
      have h2 : outerAssignmentsOf ctx.witness_cols ((r, Constraint.Assignment v) :: rest)
          = (r, Constraint.Assignment v) :: outerAssignmentsOf ctx.witness_cols rest := by
        simp [outerAssignmentsOf, hw]
      have h3 : applyConstraint ctx row s (r, Constraint.Assignment v)
          = { s with outer_query := (s.outer_query.map (fun oq => { oq with left := oq.left.map (fun l => l.assign r v) })) } := by
        unfold applyConstraint
        rw [if_neg hw]
      rw [h1, h2, h3]
      cases s with
      | mk d oqo =>
        cases oqo with
        | none => rfl
        | some oq =>
          have hfun : ∀ l : AffineExpression F,
              applyAssignmentsToAff ((r, Constraint.Assignment v) :: outerAssignmentsOf ctx.witness_cols rest) l
                = applyAssignmentsToAff (outerAssignmentsOf ctx.witness_cols rest) (l.assign r v) :=
            fun l => rfl
          simp [List.map_map, Function.comp, hfun]

/-- The state `apply_updates` returns is the fold of the constraints
(no-op for empty updates). -/
theorem applyUpdates_fst {F : Type} [CommRing F] [DecidableEq F]
    (ctx : BPContext F) (row : Nat) (s : BPState F) (u : EvalValue F) :
    (applyUpdates ctx row s u).1
      = u.constraints.foldl (applyConstraint ctx row) s := by
  unfold applyUpdates
  by_cases he : u.constraints.isEmpty = true
  · rw [if_pos he, List.isEmpty_iff.mp he]
    rfl
  · rw [if_neg he]

/-- Membership in the non-owned filter. -/
theorem mem_outerAssignmentsOf {F : Type} {wc : List PolyID}
    {cs : Constraints F} {pc : AlgebraicReference × Constraint F} :
    pc ∈ outerAssignmentsOf wc cs ↔ pc ∈ cs ∧ pc.1.poly_id ∉ wc := by
  unfold outerAssignmentsOf
  rw [List.mem_filter]
  simp

/-- C4: when `process_outer_query` runs on a set outer query and the link
processing succeeds, the returned `outer_assignments` are exactly the
assignments to columns not owned by the machine (`PolyID` not in
`witness_cols`): every such assignment is accumulated there and
substituted into the caller's left-hand-side affine expressions, while
every update to a locally owned column is applied to the local row pair
and never appears in the outer assignments. -/
theorem claimC4_outer_query_split {F : Type} [CommRing F] [Inv F]
    [DecidableEq F] (ctx : BPContext F) (s : BPState F) (row_index : Nat)
    (oq : OuterQuery F) (updates : EvalValue F)
    (h1 : s.outer_query = some oq)
    (h2 : processLink ctx.fixed oq.left oq.right (s.data.getD row_index [])
        (s.data.getD (row_index + 1) []) (ctx.row_offset + row_index)
        = .ok updates) :
    ∃ t prog,
      processOuterQuery ctx s row_index
        = .ok (t, prog, outerAssignmentsOf ctx.witness_cols updates.constraints) ∧
      t.outer_query = some { oq with
        left := oq.left.map (applyAssignmentsToAff (outerAssignmentsOf ctx.witness_cols updates.constraints)) } ∧
      t.data = applyOwnedToData row_index (ownedConstraintsOf ctx.witness_cols updates.constraints) s.data ∧
      (∀ pc ∈ outerAssignmentsOf ctx.witness_cols updates.constraints,
        pc.1.poly_id ∉ ctx.witness_cols) ∧
      (∀ pc ∈ updates.constraints, pc.1.poly_id ∉ ctx.witness_cols →
        pc ∈ outerAssignmentsOf ctx.witness_cols updates.constraints) ∧
      (∀ pc ∈ updates.constraints, pc.1.poly_id ∈ ctx.witness_cols →
        pc ∉ outerAssignmentsOf ctx.witness_cols updates.constraints) := by
  refine ⟨(applyUpdates ctx row_index s updates).1,
    (applyUpdates ctx row_index s updates).2, ?_, ?_, ?_, ?_, ?_, ?_⟩
  · simp only [processOuterQuery, h1, h2]
    rfl
  · rw [applyUpdates_fst, foldl_applyConstraint_split, h1]
    rfl
  · rw [applyUpdates_fst, foldl_applyConstraint_split]
  · intro pc hpc
    exact (mem_outerAssignmentsOf.mp hpc).2
  · intro pc hpc hnot
    exact mem_outerAssignmentsOf.mpr ⟨hpc, hnot⟩
  · intro pc hpc hmem hfil
    exact (mem_outerAssignmentsOf.mp hfil).2 hmem

/-- Witness for C4: a callee owning column 0 answers an outer query for
the caller-owned column 5; the assignment `7` lands in the outer
assignments and is substituted into the caller's left. -/
theorem claimC4_witness :
    (c4State.outer_query = some c4OuterQuery) ∧
    (processLink c4Ctx.fixed c4OuterQuery.left c4OuterQuery.right
        (c4State.data.getD 0 []) (c4State.data.getD 1 []) (c4Ctx.row_offset + 0)
      = .ok c4Updates) ∧
    (∃ t prog,
      processOuterQuery c4Ctx c4State 0
        = .ok (t, prog, outerAssignmentsOf c4Ctx.witness_cols c4Updates.constraints) ∧
      t.outer_query = some { c4OuterQuery with
        left := c4OuterQuery.left.map (applyAssignmentsToAff (outerAssignmentsOf c4Ctx.witness_cols c4Updates.constraints)) } ∧
      t.data = applyOwnedToData 0 (ownedConstraintsOf c4Ctx.witness_cols c4Updates.constraints) c4State.data ∧
      (∀ pc ∈ outerAssignmentsOf c4Ctx.witness_cols c4Updates.constraints,
        pc.1.poly_id ∉ c4Ctx.witness_cols) ∧
      (∀ pc ∈ c4Updates.constraints, pc.1.poly_id ∉ c4Ctx.witness_cols →
        pc ∈ outerAssignmentsOf c4Ctx.witness_cols c4Updates.constraints) ∧
      (∀ pc ∈ c4Updates.constraints, pc.1.poly_id ∈ c4Ctx.witness_cols →
        pc ∉ outerAssignmentsOf c4Ctx.witness_cols c4Updates.constraints)) :=
  ⟨rfl, by decide,
    claimC4_outer_query_split c4Ctx c4State 0 c4OuterQuery c4Updates rfl (by decide)⟩
